import Mathlib

/-!
Shallow embedding of the Whizy prediction-market backend core
(market reconciliation & bet-settlement engine) and proofs of the
specification claims.

Conventions of the embedding:
* machine integers (`u64`, `i64`, `i32`) are modelled as `ℕ` / `ℤ`;
  every value manipulated by the embedded code stays far away from the
  overflow boundary, and the source performs no wrapping arithmetic;
* `f64` arithmetic on amounts, pools, odds and probabilities is modelled
  over `ℚ` (all values appearing in the claims are exactly representable);
* fallible operations return `Except AppError`;
* database tables are lists of row structures, SQL point queries are
  `List.find?` / `List.filter`, SQL `UPDATE` statements are `List.map`
  over the rows, with the `WHERE` clause as the condition;
* on-chain calls and their outcomes are modelled by a `ChainEnv` record
  holding the result of every external step, so that the control flow of
  the Rust code around those results can be reproduced exactly.
-/

namespace Whizy

/-- Error taxonomy of the backend (`AppError` in `src/error.rs`, variants as
used throughout the sources: `BadRequest`, `NotFound`, `Unauthorized`,
`Internal`). -/
inductive AppError where
  | BadRequest (msg : String)
  | NotFound (msg : String)
  | Unauthorized (msg : String)
  | Internal (msg : String)
  deriving DecidableEq, Repr

/-! ## constants.rs : the Unit Converter -/

/-- Constant `USDC_UNIT` from `constants.rs`: base units per whole USDC. -/
def USDC_UNIT : ℕ := 1000000

/-- Constant `MIN_BET_RAW` from `constants.rs`. -/
def MIN_BET_RAW : ℕ := USDC_UNIT

/-- Constant `MAX_BET_RAW` from `constants.rs`. -/
def MAX_BET_RAW : ℕ := 10000 * USDC_UNIT

/-- Function `raw_to_usdc` from `constants.rs`: `amount as f64 / USDC_UNIT as f64`,
modelled over `ℚ`. -/
def raw_to_usdc (amount : ℕ) : ℚ := (amount : ℚ) / (USDC_UNIT : ℚ)

/-- Function `usdc_to_raw` from `constants.rs`: `(amount * USDC_UNIT as f64) as u64`.
Rust's `as u64` cast truncates toward zero and saturates negative values
at `0`; for a rational `q` this is `⌊q⌋.toNat` when `q ≥ 0` and `0`
otherwise, which is exactly `Int.toNat ∘ Int.floor` on the nonnegative
reachable inputs (the caller has already rejected negative amounts). -/
def usdc_to_raw (amount : ℚ) : ℕ := (⌊amount * (USDC_UNIT : ℚ)⌋).toNat

/-- Function `parse_usdc_amount` from `constants.rs`.  The `str::parse::<f64>` step
is modelled by the argument already being an `Option ℚ`: `none` stands for
a string that does not parse as a float, `some a` for one that parses to
the value `a`. -/
def parse_usdc_amount (amount : Option ℚ) : Except AppError ℕ :=
  match amount with
  | none => .error (.BadRequest "Invalid amount format")
  | some a =>
    if a < 0 then .error (.BadRequest "Amount cannot be negative")
    else
      let amount_raw := usdc_to_raw a
      if amount_raw = 0 then
        .error (.BadRequest "Amount too small (minimum is 0.000001 USDC)")
      else .ok amount_raw

/-- Function `validate_bet_amount` from `constants.rs`. -/
def validate_bet_amount (amount : ℕ) : Except AppError Unit :=
  if amount < MIN_BET_RAW then .error (.BadRequest "Minimum bet is 1 USDC")
  else if MAX_BET_RAW < amount then .error (.BadRequest "Maximum bet is 10000 USDC")
  else .ok ()

/-! ## Data model: rows of `markets_extended` and `bets_extended` -/

/-- A row of the `markets_extended` table, restricted to the columns read
or written by the reconciliation / settlement / chart core.  The pool
columns hold raw base-unit integers.  `question` is a list of characters
so that the Rust `str` operations (`trim`, `starts_with`) can be embedded
verbatim. -/
structure MarketRow where
  id : String
  adjTicker : Option String
  blockchainMarketId : Option ℤ
  status : String
  question : List Char
  createdAt : Option ℤ
  yesPoolSize : ℕ
  noPoolSize : ℕ
  totalPoolSize : ℕ
  volume : ℕ
  countYes : ℕ
  countNo : ℕ
  deriving DecidableEq, Repr

/-- A row of the `bets_extended` table (columns used by the settlement
engine and the chart aggregator).  `createdAt` is the epoch-seconds value
the chart query extracts from the column. -/
structure BetRow where
  id : String
  userId : String
  marketId : String
  blockchainBetId : Option ℤ
  position : Option Bool
  amount : Option ℚ
  odds : ℚ
  status : String
  createdAt : Option ℤ
  deriving DecidableEq, Repr

/-- The relational database state: the two tables the core reads and
writes. -/
structure Db where
  markets : List MarketRow
  bets : List BetRow
  deriving DecidableEq, Repr

/-! ## betting_service.rs : the Pool/Odds Calculator -/

/-- Arithmetic core of `BettingService::calculate_bet_odds`
(`src/services/betting_service.rs:297-327`), the code that runs after the
pool columns of the market row have been fetched: convert the raw pools
and the pending wager to USDC, add the wager to its side, and return
`max(total / position_pool, 1)` with `1` when the position's final pool is
not positive. -/
def calculate_bet_odds_pools (yesPoolSize noPoolSize : ℕ) (position : Bool)
    (amount_raw : ℕ) : ℚ :=
  let amount_usdc := raw_to_usdc amount_raw
  let yes_pool := raw_to_usdc yesPoolSize
  let no_pool := raw_to_usdc noPoolSize
  let final_yes_pool := if position then yes_pool + amount_usdc else yes_pool
  let final_no_pool := if position then no_pool else no_pool + amount_usdc
  let total_pool := final_yes_pool + final_no_pool
  let raw_odds :=
    if position then
      if 0 < final_yes_pool then total_pool / final_yes_pool else 1
    else
      if 0 < final_no_pool then total_pool / final_no_pool else 1
  max raw_odds 1

/-- Method `BettingService::calculate_bet_odds`
(`src/services/betting_service.rs:279-328`): fetch the pool columns of the
market row (`fetch_one`, an `Internal` error when the row is missing) and
run the arithmetic core. -/
def calculate_bet_odds (db : Db) (market_id : String) (position : Bool)
    (amount_raw : ℕ) : Except AppError ℚ :=
  match db.markets.find? (fun m => m.id == market_id) with
  | none => .error (.Internal "Failed to fetch market")
  | some m => .ok (calculate_bet_odds_pools m.yesPoolSize m.noPoolSize position amount_raw)

/-- Final pool of the wagered position once the pending wager is included,
as the specification words it ("final pools include the pending wager
itself"), in USDC. -/
def finalPositionPool (yesPool noPool : ℕ) (position : Bool) (amount : ℕ) : ℚ :=
  raw_to_usdc (if position then yesPool + amount else noPool + amount)

/-- Final total pool once the pending wager is included, as the
specification words it, in USDC. -/
def finalTotalPool (yesPool noPool : ℕ) (amount : ℕ) : ℚ :=
  raw_to_usdc (yesPool + noPool + amount)

/-! ## betting_service.rs : pool updates -/

/-- The `SET` clause of the `UPDATE markets_extended` statements in
`BettingService::update_market_pools`
(`src/services/betting_service.rs:330-383`) applied to one row: the
wagered side's pool and count and the total pool are incremented, and
`volume` is recomputed from the pre-update `yesPoolSize + noPoolSize`
plus the wager (SQL reads the old column values on the right-hand side). -/
def update_market_pools_row (m : MarketRow) (position : Bool) (amount_raw : ℕ) :
    MarketRow :=
  if position then
    { m with
      yesPoolSize := m.yesPoolSize + amount_raw
      totalPoolSize := m.totalPoolSize + amount_raw
      volume := m.yesPoolSize + m.noPoolSize + amount_raw
      countYes := m.countYes + 1 }
  else
    { m with
      noPoolSize := m.noPoolSize + amount_raw
      totalPoolSize := m.totalPoolSize + amount_raw
      volume := m.yesPoolSize + m.noPoolSize + amount_raw
      countNo := m.countNo + 1 }

/-- Method `BettingService::update_market_pools`: the `UPDATE ... WHERE id = $2`
statement over the whole table. -/
def update_market_pools (db : Db) (market_id : String) (position : Bool)
    (amount_raw : ℕ) : Db :=
  { db with
    markets := db.markets.map (fun m =>
      if m.id == market_id then update_market_pools_row m position amount_raw else m) }

/-! ## betting_service.rs : the Bet Settlement Engine -/

/-- Parameters of `BettingService::place_bet` (`PlaceBetParams`).  The
`amount` string is modelled by its `str::parse::<f64>` outcome: `none`
for an unparsable string, `some a` for one parsing to `a`. -/
structure PlaceBetParams where
  market_identifier : String
  user_address : String
  position : Bool
  amount : Option ℚ
  deriving DecidableEq, Repr

/-- Structure `PlaceBetResult` from `betting_service.rs`. -/
structure PlaceBetResult where
  bet_id : String
  blockchain_bet_id : ℕ
  market_id : String
  blockchain_market_id : ℤ
  position : Bool
  amount : Option ℚ
  tx_hash : String
  user_address : String
  deriving DecidableEq, Repr

deriving instance DecidableEq for Except

/-- Outcomes of every external step performed by
`BettingService::submit_bet_transaction` and of the two database writes of
`place_bet`.  Each field holds the result the corresponding call would
return, so the embedded functions reproduce the Rust control flow around
those results exactly. -/
structure ChainEnv where
  /-- environment variables, RPC provider, wallet and contract-address
  parsing (`betting_service.rs:167-197`); any failure is an `Internal`
  error carrying this message. -/
  configResult : Except String Unit
  /-- the `contract.markets(market_id)` read (`betting_service.rs:207-213`). -/
  marketDataResult : Except String Unit
  /-- the `allowance(owner, spender)` read (`betting_service.rs:218-222`). -/
  allowanceResult : Except String ℕ
  /-- sending the approval transaction (`betting_service.rs:229-233`). -/
  approveSendResult : Except String Unit
  /-- awaiting the approval confirmation (`betting_service.rs:238-240`). -/
  approveConfirmResult : Except String Unit
  /-- sending the `placeBet` transaction (`betting_service.rs:247-252`);
  on success carries the transaction hash. -/
  betSendResult : Except String String
  /-- awaiting the `placeBet` receipt (`betting_service.rs:257-274`):
  `ok (some _)` a confirmed receipt, `ok none` no receipt, `error` a
  failed transaction. -/
  betReceiptResult : Except String (Option Unit)
  /-- outcome of the `INSERT INTO bets_extended` statement
  (`betting_service.rs:103-120`). -/
  insertBetResult : Except String Unit
  /-- outcome of the `UPDATE markets_extended` pool statement
  (`betting_service.rs:330-383`). -/
  updatePoolsResult : Except String Unit
  deriving DecidableEq, Repr

/-- Method `BettingService::submit_bet_transaction`
(`src/services/betting_service.rs:161-277`): configuration and client
setup, the market-data read, the allowance check, a conditional
approve-and-await step when the allowance is insufficient, sending the
wager transaction, and awaiting its receipt.  Every failure is surfaced
as `AppError.Internal`. -/
def submit_bet_transaction (env : ChainEnv) (market_id : ℤ) (position : Bool)
    (amount : ℕ) : Except AppError String :=
  match env.configResult with
  | .error e => .error (.Internal e)
  | .ok _ =>
    match env.marketDataResult with
    | .error e => .error (.Internal ("Failed to get market data: " ++ e))
    | .ok _ =>
      match env.allowanceResult with
      | .error e => .error (.Internal ("Failed to check allowance: " ++ e))
      | .ok allowance =>
        let approvalStep : Except AppError Unit :=
          if allowance < amount then
            match env.approveSendResult with
            | .error e => .error (.Internal ("Failed to send approval: " ++ e))
            | .ok _ =>
              match env.approveConfirmResult with
              | .error e => .error (.Internal ("Approval transaction failed: " ++ e))
              | .ok _ => .ok ()
          else .ok ()
        match approvalStep with
        | .error e => .error e
        | .ok _ =>
          match env.betSendResult with
          | .error e => .error (.Internal ("Failed to send transaction: " ++ e))
          | .ok tx_hash =>
            match env.betReceiptResult with
            | .ok (some _) => .ok tx_hash
            | .ok none => .error (.Internal "Transaction returned no receipt")
            | .error e => .error (.Internal ("Transaction failed: " ++ e))

/-- Method `BettingService::get_market_by_identifier`
(`src/services/betting_service.rs:142-159`): the market is looked up by
internal id, by external ticker (`adjTicker`), or by its blockchain id
rendered as text (`"blockchainMarketId"::text = $1`; a NULL id matches
nothing).  `LIMIT 1` picks the first matching row. -/
def marketMatchesIdentifier (m : MarketRow) (identifier : String) : Bool :=
  m.id == identifier || m.adjTicker == some identifier ||
    (match m.blockchainMarketId with
     | some b => toString b == identifier
     | none => false)

/-- The lookup itself: first matching row, or `NotFound`. -/
def get_market_by_identifier (db : Db) (identifier : String) :
    Except AppError MarketRow :=
  match db.markets.find? (fun m => marketMatchesIdentifier m identifier) with
  | some m => .ok m
  | none => .error (.NotFound "Market not found")

/-- The odds value stored in the inserted row:
`format!("{:.4}", odds).parse::<BigDecimal>()`, i.e. the odds rounded to
four decimal places. -/
def round4 (q : ℚ) : ℚ := (round (q * 10000) : ℤ) / 10000

/-- Method `BettingService::place_bet` (`src/services/betting_service.rs:59-140`).
Returns the result together with the database state after the call
(`new_bet_id` models the freshly generated UUID, `now` the `NOW()`
timestamp used by the insert).  Control flow follows the source: resolve
the market, reject when it has no blockchain id or is not active, parse
and bound-check the amount, submit the on-chain transaction, compute the
odds from the current pool snapshot, insert the bet row, then update the
market pools. -/
def place_bet (db : Db) (env : ChainEnv) (new_bet_id : String) (now : ℤ)
    (params : PlaceBetParams) : Except AppError PlaceBetResult × Db :=
  match get_market_by_identifier db params.market_identifier with
  | .error e => (.error e, db)
  | .ok market =>
    match market.blockchainMarketId with
    | none => (.error (.BadRequest "Market is not on blockchain yet"), db)
    | some blockchain_market_id =>
      if market.status ≠ "active" then
        (.error (.BadRequest "Market is not active"), db)
      else
        match parse_usdc_amount params.amount with
        | .error e => (.error e, db)
        | .ok amount_raw =>
          match validate_bet_amount amount_raw with
          | .error e => (.error e, db)
          | .ok _ =>
            match submit_bet_transaction env blockchain_market_id params.position amount_raw with
            | .error e => (.error e, db)
            | .ok tx_hash =>
              match calculate_bet_odds db market.id params.position amount_raw with
              | .error e => (.error e, db)
              | .ok odds =>
                match env.insertBetResult with
                | .error e => (.error (.Internal ("Failed to insert bet: " ++ e)), db)
                | .ok _ =>
                  let db1 : Db :=
                    { db with
                      bets := db.bets ++
                        [{ id := new_bet_id, userId := params.user_address,
                           marketId := market.id, blockchainBetId := none,
                           position := some params.position,
                           amount := some (amount_raw : ℚ), odds := round4 odds,
                           status := "active", createdAt := some now }] }
                  match env.updatePoolsResult with
                  | .error e => (.error (.Internal ("Failed to update market pools: " ++ e)), db1)
                  | .ok _ =>
                    (.ok { bet_id := new_bet_id, blockchain_bet_id := 0,
                           market_id := market.id,
                           blockchain_market_id := blockchain_market_id,
                           position := params.position, amount := params.amount,
                           tx_hash := tx_hash, user_address := params.user_address },
                     update_market_pools db1 market.id params.position amount_raw)

/-! ## blockchain_sync.rs : the Chain Reconciler -/

/-- Rust's `char::is_whitespace` (the Unicode `White_Space` property),
used by `str::trim`. -/
def isRustWhitespace (c : Char) : Bool :=
  let n := c.toNat
  (9 ≤ n && n ≤ 13) || n == 32 || n == 0x85 || n == 0xA0 || n == 0x1680 ||
    (0x2000 ≤ n && n ≤ 0x200A) || n == 0x2028 || n == 0x2029 || n == 0x202F ||
    n == 0x205F || n == 0x3000

/-- Rust's `str::trim`: drop whitespace from both ends. -/
def rustTrim (s : List Char) : List Char :=
  ((s.dropWhile isRustWhitespace).reverse.dropWhile isRustWhitespace).reverse

/-- The match predicate of the reconciler
(`src/services/blockchain_sync.rs:108-112`): trim both questions, then
`blockchain_question == db_question || db_question.starts_with(blockchain_question)`
(Rust's `starts_with` holds when its argument is a prefix of the
receiver). -/
def questions_match (blockchain_question db_question : List Char) : Bool :=
  let bq := rustTrim blockchain_question
  let dq := rustTrim db_question
  bq == dq || bq.isPrefixOf dq

/-- The match predicate as the specification claims it: after trimming,
the texts are exactly equal or one is a prefix of the other, in either
direction. -/
def spec_questions_match (blockchain_question db_question : List Char) : Bool :=
  let bq := rustTrim blockchain_question
  let dq := rustTrim db_question
  bq == dq || bq.isPrefixOf dq || dq.isPrefixOf bq

/-- The conditional chain-id assignment used by
`BlockchainSyncService::sync_markets_to_blockchain`
(`src/services/blockchain_sync.rs:121-131` for the match path and
`252-262` for the creation path; `SyncService::sync_from_blockchain` at
`src/services/sync.rs:308-317` issues the same statement):
`UPDATE markets_extended SET "blockchainMarketId" = $1 WHERE id = $2 AND
"blockchainMarketId" IS NULL`.  Returns the updated table together with
the number of rows affected. -/
def sync_assign_blockchain_id (markets : List MarketRow) (row_id : String)
    (blockchain_id : ℤ) : List MarketRow × ℕ :=
  (markets.map (fun m =>
      if m.id == row_id && m.blockchainMarketId == none then
        { m with blockchainMarketId := some blockchain_id }
      else m),
   markets.countP (fun m => m.id == row_id && m.blockchainMarketId == none))

/-- The chain-id assignment used by
`BlockchainSyncService::verify_blockchain_sync`
(`src/services/blockchain_sync.rs:381-388`):
`UPDATE markets_extended SET "blockchainMarketId" = $1 WHERE id = $2` —
note the absence of the `IS NULL` condition; the NULL check is made only
by a separate read before the write. -/
def verify_assign_blockchain_id (markets : List MarketRow) (row_id : String)
    (blockchain_id : ℤ) : List MarketRow × ℕ :=
  (markets.map (fun m =>
      if m.id == row_id then { m with blockchainMarketId := some blockchain_id }
      else m),
   markets.countP (fun m => m.id == row_id))

/-! ## sync.rs : sync status -/

/-- Structure `SyncStatusResponse` from `models.rs`.  The RFC3339 timestamp string
is modelled by the epoch instant it renders. -/
structure SyncStatusResponse where
  last_synced_block : ℤ
  is_syncing : Bool
  markets_synced : ℤ
  bets_synced : ℤ
  protocols_synced : ℤ
  last_sync_time : Option ℤ
  deriving DecidableEq, Repr

/-- Method `SyncService::get_sync_status` (`src/services/sync.rs:41-67`): counts
the rows of `markets_extended`, `bets_extended` and `protocols`, reports
`last_synced_block = 0`, `is_syncing = false`, and stamps
`last_sync_time` with `Utc::now()` taken at the moment of this call
(modelled by the `now` parameter).  `protocolsCount` is the row count of
the `protocols` table, which lies outside the embedded `Db`. -/
def get_sync_status (db : Db) (protocolsCount : ℕ) (now : ℤ) : SyncStatusResponse :=
  { last_synced_block := 0
    is_syncing := false
    markets_synced := db.markets.length
    bets_synced := db.bets.length
    protocols_synced := protocolsCount
    last_sync_time := some now }

/-! ## chart.rs : the Chart Aggregator -/

/-- Structure `ChartDataPoint` from `chart.rs` (`value` is `f64`, modelled over `ℚ`). -/
structure ChartDataPoint where
  time : ℤ
  value : ℚ
  deriving DecidableEq, Repr

/-- Structure `MarketChartData` from `chart.rs`: the eight emitted series. -/
structure MarketChartData where
  yes_probability : List ChartDataPoint
  no_probability : List ChartDataPoint
  yes_volume : List ChartDataPoint
  no_volume : List ChartDataPoint
  total_volume : List ChartDataPoint
  yes_odds : List ChartDataPoint
  no_odds : List ChartDataPoint
  bet_count : List ChartDataPoint
  deriving DecidableEq, Repr

/-- Structure `BucketData` from `chart.rs` (volumes and running totals are `i64`,
counts `i32`). -/
structure BucketData where
  yes_volume : ℤ
  no_volume : ℤ
  yes_count : ℤ
  no_count : ℤ
  yes_total : ℤ
  no_total : ℤ
  deriving DecidableEq, Repr

/-- Method `ChartService::validate_interval` (`src/chart.rs:296-312`). -/
def validate_interval (interval : String) : Except AppError ℤ :=
  match interval with
  | "1m" => .ok 60
  | "5m" => .ok 300
  | "15m" => .ok 900
  | "1h" => .ok 3600
  | "4h" => .ok 14400
  | "1d" => .ok 86400
  | _ => .error (.BadRequest "Invalid interval. Allowed values: 1m, 5m, 15m, 1h, 4h, 1d")

/-- The amount parsing of `chart.rs:179-192`:
`amount.to_string().split('.').next().parse::<i64>()` truncates the
decimal toward zero. -/
def ratTrunc (q : ℚ) : ℤ := if q < 0 then ⌈q⌉ else ⌊q⌋

/-- The market lookup of `get_market_chart_data` (`src/chart.rs:65-73`):
`WHERE id = $1 OR "adjTicker" = $1 LIMIT 1`. -/
def chartQueryMarket (db : Db) (market_id : String) : Option MarketRow :=
  db.markets.find? (fun m => m.id == market_id || m.adjTicker == some market_id)

/-- Binding `market_created_at` (`src/chart.rs:75-78`): the market's creation
epoch, defaulting to seven days before now when the market is missing or
its timestamp is NULL. -/
def chartMarketCreatedAt (db : Db) (now : ℤ) (market_id : String) : ℤ :=
  ((chartQueryMarket db market_id).bind (fun m => m.createdAt)).getD (now - 86400 * 7)

/-- Binding `blockchain_market_id` (`src/chart.rs:80`): defaults to `0`. -/
def chartBlockchainMarketId (db : Db) (market_id : String) : ℤ :=
  ((chartQueryMarket db market_id).bind (fun m => m.blockchainMarketId)).getD 0

/-- Binding `to_timestamp` (`src/chart.rs:82`): defaults to now. -/
def chartToTimestamp (now : ℤ) (toQ : Option ℤ) : ℤ := toQ.getD now

/-- Binding `from_timestamp` (`src/chart.rs:84`): defaults to the market's
creation time. -/
def chartFromTimestamp (db : Db) (now : ℤ) (market_id : String)
    (fromQ : Option ℤ) : ℤ :=
  fromQ.getD (chartMarketCreatedAt db now market_id)

/-- Stable insertion into a list sorted by bet timestamp (modelling the
query's `ORDER BY "createdAt" ASC`). -/
def insertBetByTime (b : BetRow) : List BetRow → List BetRow
  | [] => [b]
  | c :: rest =>
    if b.createdAt.getD 0 < c.createdAt.getD 0 then b :: c :: rest
    else c :: insertBetByTime b rest

/-- Sort a bet list by ascending timestamp. -/
def sortBetsByTime (l : List BetRow) : List BetRow := l.foldr insertBetByTime []

/-- The bet query of `get_market_chart_data` (`src/chart.rs:89-122`):
bets belonging to any market matching the identifier by id, ticker, or
blockchain id, whose timestamp lies in `[from, to]` (SQL `BETWEEN` is
inclusive and rejects NULL), ordered by ascending creation time. -/
def chartBets (db : Db) (now : ℤ) (market_id : String) (fromQ toQ : Option ℤ) :
    List BetRow :=
  let blockchain_market_id := chartBlockchainMarketId db market_id
  let from_timestamp := chartFromTimestamp db now market_id fromQ
  let to_timestamp := chartToTimestamp now toQ
  let matching_ids := (db.markets.filter (fun m =>
      m.id == market_id || m.adjTicker == some market_id ||
        m.blockchainMarketId == some blockchain_market_id)).map (fun m => m.id)
  sortBetsByTime (db.bets.filter (fun b =>
    matching_ids.contains b.marketId &&
      (match b.createdAt with
       | some t => decide (from_timestamp ≤ t) && decide (t ≤ to_timestamp)
       | none => false)))

/-- Binding `actual_start_timestamp` (`src/chart.rs:126-134`): an explicit `from`
wins; otherwise the first bet's timestamp when bets exist, else the
market's creation time. -/
def chartActualStart (db : Db) (now : ℤ) (market_id : String)
    (fromQ toQ : Option ℤ) : ℤ :=
  if fromQ.isSome then chartFromTimestamp db now market_id fromQ
  else if (chartBets db now market_id fromQ toQ).isEmpty then
    chartMarketCreatedAt db now market_id
  else
    (((chartBets db now market_id fromQ toQ).head?).bind (fun b => b.createdAt)).getD
      (chartMarketCreatedAt db now market_id)

/-- The bucket key `(timestamp / interval_seconds) * interval_seconds`
(`src/chart.rs:152-153` and `167`), with Rust's truncating `i64`
division. -/
def bucketKey (interval_seconds t : ℤ) : ℤ :=
  (t.tdiv interval_seconds) * interval_seconds

/-- Binding `start_bucket` (`src/chart.rs:152`). -/
def chartStartBucket (db : Db) (now : ℤ) (market_id : String)
    (fromQ toQ : Option ℤ) (interval_seconds : ℤ) : ℤ :=
  bucketKey interval_seconds (chartActualStart db now market_id fromQ toQ)

/-- Binding `end_bucket` (`src/chart.rs:153`). -/
def chartEndBucket (now : ℤ) (toQ : Option ℤ) (interval_seconds : ℤ) : ℤ :=
  bucketKey interval_seconds (chartToTimestamp now toQ)

/-- Fuelled form of the time loop of `src/chart.rs:155-160`
(`while current <= end_bucket { times.push(current); current += interval }`).
The fuel only bounds the recursion; for a positive interval it never runs
out before the loop condition fails. -/
def collectTimesAux (interval_seconds end_bucket : ℤ) : ℕ → ℤ → List ℤ
  | 0, _ => []
  | fuel + 1, current =>
    if current ≤ end_bucket then
      current :: collectTimesAux interval_seconds end_bucket fuel (current + interval_seconds)
    else []

/-- The emitted bucket times: every interval step from `start_bucket`
while `current ≤ end_bucket`.  `validate_interval` only produces positive
intervals, for which the chosen fuel is sufficient. -/
def collectTimes (start_bucket end_bucket interval_seconds : ℤ) : List ℤ :=
  collectTimesAux interval_seconds end_bucket
    (end_bucket + 1 - start_bucket).toNat start_bucket

/-- One iteration of the bet-bucketing loop of `src/chart.rs:166-208`:
place the bet in its bucket, add its truncated amount to the bucket's
side volume and count, update the global running totals, and record them
in the bucket's `yes_total`/`no_total` (later bets of the same bucket
overwrite them, so a bucket ends up holding the cumulative totals as of
its last bet). -/
def processBet (interval_seconds : ℤ)
    (st : (ℤ → Option BucketData) × ℤ × ℤ) (bet : BetRow) :
    (ℤ → Option BucketData) × ℤ × ℤ :=
  let time_buckets := st.1
  let yes_total := st.2.1
  let no_total := st.2.2
  let bucket_time := bucketKey interval_seconds (bet.createdAt.getD 0)
  let entry := (time_buckets bucket_time).getD
    { yes_volume := 0, no_volume := 0, yes_count := 0, no_count := 0,
      yes_total := 0, no_total := 0 }
  let amount_i64 := ratTrunc (bet.amount.getD 0)
  let is_yes_position := bet.position.getD false
  let entry1 :=
    if is_yes_position then
      { entry with yes_volume := entry.yes_volume + amount_i64,
                   yes_count := entry.yes_count + 1 }
    else
      { entry with no_volume := entry.no_volume + amount_i64,
                   no_count := entry.no_count + 1 }
  let yes_total2 := if is_yes_position then yes_total + amount_i64 else yes_total
  let no_total2 := if is_yes_position then no_total else no_total + amount_i64
  let entry2 := { entry1 with yes_total := yes_total2, no_total := no_total2 }
  (fun t => if t = bucket_time then some entry2 else time_buckets t,
   yes_total2, no_total2)

/-- The `time_buckets` map after processing every bet of the query in
ascending time order. -/
def chartBuckets (db : Db) (now : ℤ) (market_id : String) (fromQ toQ : Option ℤ)
    (interval_seconds : ℤ) : ℤ → Option BucketData :=
  ((chartBets db now market_id fromQ toQ).foldl (processBet interval_seconds)
     (fun _ => none, 0, 0)).1

/-- The list of emitted bucket times of one chart query. -/
def chartTimes (db : Db) (now : ℤ) (market_id : String) (fromQ toQ : Option ℤ)
    (interval_seconds : ℤ) : List ℤ :=
  collectTimes (chartStartBucket db now market_id fromQ toQ interval_seconds)
    (chartEndBucket now toQ interval_seconds) interval_seconds

/-- The emission loop of `src/chart.rs:219-282`: walk the bucket times
carrying the running pools; a bucket present in the map replaces the
running pools by its recorded cumulative totals, an absent (zero-bet)
bucket leaves them unchanged; probability is
`running_yes_pool / total_pool` (`0.5` when the total pool is not
positive), each side's odds are `1 / probability` (`2.0` when that
probability is not positive). -/
def chartLoop (buckets : ℤ → Option BucketData)
    (running_yes_pool running_no_pool : ℤ) : List ℤ → MarketChartData
  | [] =>
    { yes_probability := [], no_probability := [], yes_volume := [],
      no_volume := [], total_volume := [], yes_odds := [], no_odds := [],
      bet_count := [] }
  | time :: rest =>
    let st : ℤ × ℤ × ℤ :=
      match buckets time with
      | some b => (b.yes_total, b.no_total, b.yes_count + b.no_count)
      | none => (running_yes_pool, running_no_pool, 0)
    let ry := st.1
    let rn := st.2.1
    let bet_count_in_period := st.2.2
    let total_pool := ry + rn
    let yes_prob : ℚ := if 0 < total_pool then (ry : ℚ) / (total_pool : ℚ) else 1/2
    let no_prob : ℚ := 1 - yes_prob
    let yes_odd : ℚ := if 0 < yes_prob then 1 / yes_prob else 2
    let no_odd : ℚ := if 0 < no_prob then 1 / no_prob else 2
    let tail := chartLoop buckets ry rn rest
    { yes_probability := ⟨time, yes_prob⟩ :: tail.yes_probability
      no_probability := ⟨time, no_prob⟩ :: tail.no_probability
      yes_volume := ⟨time, (ry : ℚ)⟩ :: tail.yes_volume
      no_volume := ⟨time, (rn : ℚ)⟩ :: tail.no_volume
      total_volume := ⟨time, (total_pool : ℚ)⟩ :: tail.total_volume
      yes_odds := ⟨time, yes_odd⟩ :: tail.yes_odds
      no_odds := ⟨time, no_odd⟩ :: tail.no_odds
      bet_count := ⟨time, (bet_count_in_period : ℚ)⟩ :: tail.bet_count }

/-- Method `ChartService::get_market_chart_data` (`src/chart.rs:56-294`):
validate the interval, resolve the market (an unknown market is not an
error: creation time defaults to seven days before now and the blockchain
id to 0), query and bucket the bets, and emit one data point per bucket
between the start and end buckets. -/
def get_market_chart_data (db : Db) (now : ℤ) (market_id : String)
    (interval : String) (fromQ toQ : Option ℤ) :
    Except AppError MarketChartData :=
  match validate_interval interval with
  | .error e => .error e
  | .ok interval_seconds =>
    .ok (chartLoop (chartBuckets db now market_id fromQ toQ interval_seconds) 0 0
          (chartTimes db now market_id fromQ toQ interval_seconds))

/-! ## Concrete sample data used by witnesses and counterexamples -/

/-- A market row that already holds blockchain id 5. -/
def rowA5 : MarketRow :=
  { id := "A", adjTicker := none, blockchainMarketId := some 5, status := "active",
    question := [], createdAt := some 0, yesPoolSize := 0, noPoolSize := 0,
    totalPoolSize := 0, volume := 0, countYes := 0, countNo := 0 }

/-- A market row that already holds blockchain id 7. -/
def rowB7 : MarketRow :=
  { id := "B", adjTicker := none, blockchainMarketId := some 7, status := "active",
    question := [], createdAt := some 0, yesPoolSize := 0, noPoolSize := 0,
    totalPoolSize := 0, volume := 0, countYes := 0, countNo := 0 }

/-- A market that legitimately holds blockchain id 0 (chain ids are
enumerated from 0). -/
def ghostMarket : MarketRow :=
  { id := "M0", adjTicker := none, blockchainMarketId := some 0,
    status := "active", question := [], createdAt := some 0, yesPoolSize := 0,
    noPoolSize := 0, totalPoolSize := 0, volume := 0, countYes := 0, countNo := 0 }

/-- A 7-USDC yes bet on `ghostMarket`, one day before epoch. -/
def ghostBet : BetRow :=
  { id := "b1", userId := "u", marketId := "M0", blockchainBetId := none,
    position := some true, amount := some 7000000, odds := 1, status := "active",
    createdAt := some (-86400) }

/-- Database holding `ghostMarket` and `ghostBet`. -/
def ghostDb : Db := { markets := [ghostMarket], bets := [ghostBet] }

/-- Sample market row with yes-pool 100 and no-pool 300 raw units. -/
def sampleMarket : MarketRow :=
  { id := "m1", adjTicker := none, blockchainMarketId := some 1, status := "active",
    question := [], createdAt := some 0, yesPoolSize := 100, noPoolSize := 300,
    totalPoolSize := 400, volume := 400, countYes := 1, countNo := 1 }

/-- Sample database holding only `sampleMarket`. -/
def sampleDb : Db := { markets := [sampleMarket], bets := [] }

/-- Sample market that has not been assigned a blockchain id yet. -/
def sampleMarketNoChain : MarketRow :=
  { id := "m2", adjTicker := some "T2", blockchainMarketId := none, status := "active",
    question := [], createdAt := some 0, yesPoolSize := 0, noPoolSize := 0,
    totalPoolSize := 0, volume := 0, countYes := 0, countNo := 0 }

/-- Sample market that is already resolved. -/
def sampleMarketResolved : MarketRow :=
  { id := "m3", adjTicker := none, blockchainMarketId := some 3, status := "resolved",
    question := [], createdAt := some 0, yesPoolSize := 0, noPoolSize := 0,
    totalPoolSize := 0, volume := 0, countYes := 0, countNo := 0 }

/-- Database holding only `sampleMarketNoChain`. -/
def sampleDbNoChain : Db := { markets := [sampleMarketNoChain], bets := [] }

/-- Database holding only `sampleMarketResolved`. -/
def sampleDbResolved : Db := { markets := [sampleMarketResolved], bets := [] }

/-- Chain environment in which every external step succeeds. -/
def okEnv : ChainEnv :=
  { configResult := .ok (), marketDataResult := .ok (), allowanceResult := .ok 0,
    approveSendResult := .ok (), approveConfirmResult := .ok (),
    betSendResult := .ok "0xabc", betReceiptResult := .ok (some ()),
    insertBetResult := .ok (), updatePoolsResult := .ok () }

/-- Chain environment in which sending the wager transaction fails. -/
def failSendEnv : ChainEnv := { okEnv with betSendResult := .error "rpc unreachable" }

/-- Sample bet-placement parameters for a given market identifier:
a 5-USDC yes wager. -/
def sampleParams (identifier : String) : PlaceBetParams :=
  { market_identifier := identifier, user_address := "0xuser", position := true,
    amount := some 5 }

end Whizy

namespace Whizy

/-! ## Theorems -/

/-- Helper: the odds computed by the arithmetic core of
`calculate_bet_odds` coincide with the specification's prospective
formula `max(1, final_total_pool / final_position_pool)` (with the
convention `x / 0 = 0`, under which the formula also yields `1` for an
empty final position pool, exactly as the code's explicit branch does). -/
theorem calculate_bet_odds_pools_eq (yp np : ℕ) (pos : Bool) (amt : ℕ) :
    calculate_bet_odds_pools yp np pos amt =
      max 1 (finalTotalPool yp np amt / finalPositionPool yp np pos amt) := by
  cases pos <;>
    simp only [calculate_bet_odds_pools, finalTotalPool, finalPositionPool,
      raw_to_usdc, USDC_UNIT, Bool.false_eq_true, if_false, if_true] <;>
    push_cast
  · by_cases h : (np + amt : ℕ) = 0
    · obtain ⟨hn, ha⟩ := Nat.add_eq_zero.mp h
      subst hn; subst ha
      norm_num
    · have hpos : (0 : ℚ) < (np : ℚ) / 1000000 + (amt : ℚ) / 1000000 := by
        have h0 : (0 : ℚ) < ((np + amt : ℕ) : ℚ) := by
          exact_mod_cast Nat.pos_of_ne_zero h
        push_cast at h0
        linarith
      have hne : (np : ℚ) + (amt : ℚ) ≠ 0 := by
        intro h0
        exact h (by exact_mod_cast h0)
      rw [if_pos hpos, max_comm]
      congr 1
      field_simp
      ring
  · by_cases h : (yp + amt : ℕ) = 0
    · obtain ⟨hn, ha⟩ := Nat.add_eq_zero.mp h
      subst hn; subst ha
      norm_num
    · have hpos : (0 : ℚ) < (yp : ℚ) / 1000000 + (amt : ℚ) / 1000000 := by
        have h0 : (0 : ℚ) < ((yp + amt : ℕ) : ℚ) := by
          exact_mod_cast Nat.pos_of_ne_zero h
        push_cast at h0
        linarith
      have hne : (yp : ℚ) + (amt : ℚ) ≠ 0 := by
        intro h0
        exact h (by exact_mod_cast h0)
      rw [if_pos hpos, max_comm]
      congr 1
      field_simp
      ring

/-- C1: for every pool state and pending wager, the odds computed by the
settlement engine's odds calculator equal
`max(1, final_total_pool / final_position_pool)` where the final pools
include the pending wager; for yes=100, no=300 and a 50-unit yes wager
the odds are 3; the odds are 1 whenever the position's final pool is
zero; and the engine's database-level entry point returns exactly this
value for the fetched market row. -/
theorem calculate_bet_odds_prospective :
    (∀ yesPool noPool position amount,
       calculate_bet_odds_pools yesPool noPool position amount =
         max 1 (finalTotalPool yesPool noPool amount /
                finalPositionPool yesPool noPool position amount))
    ∧ calculate_bet_odds_pools 100 300 true 50 = 3
    ∧ (∀ yesPool noPool position amount,
       finalPositionPool yesPool noPool position amount = 0 →
       calculate_bet_odds_pools yesPool noPool position amount = 1)
    ∧ (∀ db market_id position amount m,
       db.markets.find? (fun x => x.id == market_id) = some m →
       calculate_bet_odds db market_id position amount =
         .ok (max 1 (finalTotalPool m.yesPoolSize m.noPoolSize amount /
                     finalPositionPool m.yesPoolSize m.noPoolSize position amount))) := by
  refine ⟨fun yp np pos amt => calculate_bet_odds_pools_eq yp np pos amt, ?_, ?_, ?_⟩
  · have h3 : finalTotalPool 100 300 50 / finalPositionPool 100 300 true 50 = 3 := by
      norm_num [finalTotalPool, finalPositionPool, raw_to_usdc, USDC_UNIT]
    rw [calculate_bet_odds_pools_eq, h3]
    exact max_eq_right (by norm_num)
  · intro yp np pos amt h
    rw [calculate_bet_odds_pools_eq, h, div_zero]
    simp
  · intro db mid pos amt m hfind
    simp only [calculate_bet_odds, hfind]
    rw [calculate_bet_odds_pools_eq]

/-- Witness for C1: the hypotheses of the conditional conjuncts are
satisfiable at concrete inputs. -/
theorem calculate_bet_odds_prospective_witness :
    (finalPositionPool 0 0 true 0 = 0 ∧ calculate_bet_odds_pools 0 0 true 0 = 1) ∧
    calculate_bet_odds sampleDb "m1" true 50 =
      .ok (max 1 (finalTotalPool sampleMarket.yesPoolSize sampleMarket.noPoolSize 50 /
                  finalPositionPool sampleMarket.yesPoolSize sampleMarket.noPoolSize true 50)) := by
  have hz : finalPositionPool 0 0 true 0 = 0 := by
    norm_num [finalPositionPool, raw_to_usdc]
  refine ⟨⟨hz, calculate_bet_odds_prospective.2.2.1 0 0 true 0 hz⟩, ?_⟩
  exact calculate_bet_odds_prospective.2.2.2 sampleDb "m1" true 50 sampleMarket
    (by simp [sampleDb, sampleMarket, List.find?])


/-- C3: each pool update on a position increments that position's pool by
the wager amount and that position's count by exactly one (leaving the
other side untouched), increments the total pool by the amount, and hence
the invariant `totalPoolSize = yesPoolSize + noPoolSize` is preserved by
every sequence of updates, assuming it held initially. -/
theorem update_market_pools_invariant :
    (∀ m amount,
       (update_market_pools_row m true amount).yesPoolSize = m.yesPoolSize + amount ∧
       (update_market_pools_row m true amount).countYes = m.countYes + 1 ∧
       (update_market_pools_row m true amount).noPoolSize = m.noPoolSize ∧
       (update_market_pools_row m true amount).countNo = m.countNo ∧
       (update_market_pools_row m false amount).noPoolSize = m.noPoolSize + amount ∧
       (update_market_pools_row m false amount).countNo = m.countNo + 1 ∧
       (update_market_pools_row m false amount).yesPoolSize = m.yesPoolSize ∧
       (update_market_pools_row m false amount).countYes = m.countYes) ∧
    (∀ m position amount,
       (update_market_pools_row m position amount).totalPoolSize =
         m.totalPoolSize + amount) ∧
    (∀ m (updates : List (Bool × ℕ)),
       m.totalPoolSize = m.yesPoolSize + m.noPoolSize →
       (updates.foldl (fun s u => update_market_pools_row s u.1 u.2) m).totalPoolSize =
         (updates.foldl (fun s u => update_market_pools_row s u.1 u.2) m).yesPoolSize +
         (updates.foldl (fun s u => update_market_pools_row s u.1 u.2) m).noPoolSize) := by
  refine ⟨?_, ?_, ?_⟩
  · intro m amount
    simp [update_market_pools_row]
  · intro m position amount
    cases position <;> simp [update_market_pools_row]
  · intro m updates
    induction updates generalizing m with
    | nil => intro h; exact h
    | cons u rest ih =>
      intro h
      have hstep : (update_market_pools_row m u.1 u.2).totalPoolSize =
          (update_market_pools_row m u.1 u.2).yesPoolSize +
          (update_market_pools_row m u.1 u.2).noPoolSize := by
        cases hu : u.1 <;> simp [update_market_pools_row, hu] <;> omega
      simpa using ih (update_market_pools_row m u.1 u.2) hstep

/-- Witness for C3: the invariant-preservation conjunct applied to the
sample market and a concrete update sequence. -/
theorem update_market_pools_invariant_witness :
    (List.foldl (fun s u => update_market_pools_row s u.1 u.2) sampleMarket
        [(true, 7), (false, 5)]).totalPoolSize =
      (List.foldl (fun s u => update_market_pools_row s u.1 u.2) sampleMarket
        [(true, 7), (false, 5)]).yesPoolSize +
      (List.foldl (fun s u => update_market_pools_row s u.1 u.2) sampleMarket
        [(true, 7), (false, 5)]).noPoolSize :=
  update_market_pools_invariant.2.2 sampleMarket [(true, 7), (false, 5)]
    (by norm_num [sampleMarket])


/-- Helper for C5: every error produced by `submit_bet_transaction` is an
`Internal` error. -/
theorem submit_error_internal (env : ChainEnv) (market_id : ℤ) (position : Bool)
    (amount : ℕ) (e : AppError)
    (h : submit_bet_transaction env market_id position amount = .error e) :
    ∃ msg, e = .Internal msg := by
  unfold submit_bet_transaction at h
  repeat' split at h
  all_goals simp_all
  all_goals exact ⟨_, h.symm⟩

/-- C6: `place_bet` resolves `market_ref` by internal id, external ticker,
or blockchain id rendered as a string; it fails `NotFound` exactly when no
market matches, `BadRequest` when the matched market has no blockchain id
or is not active, and in all these cases the database is unchanged and the
result does not depend on the chain environment (no blockchain call is
made: the same value is returned for every `env`). -/
theorem place_bet_validation :
    (∀ m identifier,
       marketMatchesIdentifier m identifier = true ↔
         (m.id = identifier ∨ m.adjTicker = some identifier ∨
          (∃ b, m.blockchainMarketId = some b ∧ toString b = identifier)))
    ∧ (∀ db identifier,
       get_market_by_identifier db identifier = .error (.NotFound "Market not found") ↔
         db.markets.find? (fun m => marketMatchesIdentifier m identifier) = none)
    ∧ (∀ db env new_bet_id now params,
       db.markets.find? (fun m => marketMatchesIdentifier m params.market_identifier) = none →
       place_bet db env new_bet_id now params = (.error (.NotFound "Market not found"), db))
    ∧ (∀ db env new_bet_id now params m,
       get_market_by_identifier db params.market_identifier = .ok m →
       m.blockchainMarketId = none →
       place_bet db env new_bet_id now params =
         (.error (.BadRequest "Market is not on blockchain yet"), db))
    ∧ (∀ db env new_bet_id now params m b,
       get_market_by_identifier db params.market_identifier = .ok m →
       m.blockchainMarketId = some b →
       m.status ≠ "active" →
       place_bet db env new_bet_id now params =
         (.error (.BadRequest "Market is not active"), db)) := by
  refine ⟨?_, ?_, ?_, ?_, ?_⟩
  · intro m identifier
    cases h : m.blockchainMarketId <;>
      simp [marketMatchesIdentifier, h] <;> tauto
  · intro db identifier
    unfold get_market_by_identifier
    cases hf : db.markets.find? (fun m => marketMatchesIdentifier m identifier) <;>
      simp [hf]
  · intro db env new_bet_id now params hnone
    simp [place_bet, get_market_by_identifier, hnone]
  · intro db env new_bet_id now params m hm hb
    simp [place_bet, hm, hb]
  · intro db env new_bet_id now params m b hm hb hst
    simp [place_bet, hm, hb, hst]

/-- Witness for C6: concrete invocations hitting each validation error. -/
theorem place_bet_validation_witness :
    place_bet sampleDb okEnv "b1" 0 (sampleParams "zzz") =
      (.error (.NotFound "Market not found"), sampleDb) ∧
    place_bet sampleDbNoChain okEnv "b1" 0 (sampleParams "m2") =
      (.error (.BadRequest "Market is not on blockchain yet"), sampleDbNoChain) ∧
    place_bet sampleDbResolved okEnv "b1" 0 (sampleParams "m3") =
      (.error (.BadRequest "Market is not active"), sampleDbResolved) := by
  refine ⟨place_bet_validation.2.2.1 sampleDb okEnv "b1" 0 (sampleParams "zzz") ?_,
    place_bet_validation.2.2.2.1 sampleDbNoChain okEnv "b1" 0 (sampleParams "m2")
      sampleMarketNoChain ?_ ?_,
    place_bet_validation.2.2.2.2 sampleDbResolved okEnv "b1" 0 (sampleParams "m3")
      sampleMarketResolved 3 ?_ ?_ ?_⟩
  · simp only [sampleDb, sampleMarket, sampleParams, marketMatchesIdentifier, List.find?]
    decide
  · simp [get_market_by_identifier, sampleDbNoChain, sampleMarketNoChain, sampleParams,
      marketMatchesIdentifier, List.find?]
  · simp [sampleMarketNoChain]
  · simp [get_market_by_identifier, sampleDbResolved, sampleMarketResolved, sampleParams,
      marketMatchesIdentifier, List.find?]
  · simp [sampleMarketResolved]
  · simp [sampleMarketResolved]

/-- C5: every blockchain-side failure in `submit_bet_transaction` (config,
market-data read, allowance check, approval send or confirmation, wager
send, missing or failed receipt) surfaces as an `Internal` error, and when
an invocation of `place_bet` that has passed validation hits such a
failure, the returned error is that `Internal` error and the database is
returned unchanged: no bet row is inserted and no pool is updated. -/
theorem place_bet_chain_failure_atomic :
    (∀ env market_id position amount,
       (∃ tx, submit_bet_transaction env market_id position amount = .ok tx) ∨
       (∃ msg, submit_bet_transaction env market_id position amount =
          .error (.Internal msg)))
    ∧ (∀ db env new_bet_id now params m b amount e,
       get_market_by_identifier db params.market_identifier = .ok m →
       m.blockchainMarketId = some b →
       m.status = "active" →
       parse_usdc_amount params.amount = .ok amount →
       validate_bet_amount amount = .ok () →
       submit_bet_transaction env b params.position amount = .error e →
       place_bet db env new_bet_id now params = (.error e, db) ∧
         ∃ msg, e = .Internal msg) := by
  constructor
  · intro env market_id position amount
    cases h : submit_bet_transaction env market_id position amount with
    | ok tx => exact .inl ⟨tx, rfl⟩
    | error e =>
      obtain ⟨msg, rfl⟩ := submit_error_internal env market_id position amount e h
      exact .inr ⟨msg, rfl⟩
  · intro db env new_bet_id now params m b amount e hm hb hst hparse hval hsub
    have hne : ¬ m.status ≠ "active" := by simp [hst]
    refine ⟨?_, submit_error_internal env b params.position amount e hsub⟩
    simp [place_bet, hm, hb, hne, hparse, hval, hsub]

/-- Witness for C5: a concrete invocation in which sending the wager
transaction fails; the operation returns the `Internal` error and the
database is unchanged. -/
theorem place_bet_chain_failure_atomic_witness :
    place_bet sampleDb failSendEnv "b1" 0 (sampleParams "m1") =
      (.error (.Internal "Failed to send transaction: rpc unreachable"), sampleDb) ∧
    ∃ msg, (AppError.Internal "Failed to send transaction: rpc unreachable") =
      .Internal msg := by
  refine place_bet_chain_failure_atomic.2 sampleDb failSendEnv "b1" 0 (sampleParams "m1")
    sampleMarket 1 5000000 _ ?_ ?_ ?_ ?_ ?_ ?_
  · simp [get_market_by_identifier, sampleDb, sampleMarket, sampleParams,
      marketMatchesIdentifier, List.find?]
  · simp [sampleMarket]
  · simp [sampleMarket]
  · norm_num [sampleParams, parse_usdc_amount, usdc_to_raw, USDC_UNIT]
    rfl
  · simp [validate_bet_amount, MIN_BET_RAW, MAX_BET_RAW, USDC_UNIT]
  · simp [submit_bet_transaction, failSendEnv, okEnv]


/-- C2 counterexample: the chain-id write of `verify_blockchain_sync` is
not restricted to rows whose current blockchain id is NULL — applied to a
row that already holds id 5 it overwrites it with 7 and reports one row
affected, and applied to a table in which another row already holds id 7
it leaves two rows holding the same chain id. -/
theorem verify_assign_not_conditional :
    rowA5.blockchainMarketId = some 5 ∧
    verify_assign_blockchain_id [rowA5] "A" 7 =
      ([{ rowA5 with blockchainMarketId := some 7 }], 1) ∧
    (verify_assign_blockchain_id [rowA5, rowB7] "A" 7).1.countP
        (fun m => m.blockchainMarketId == some 7) = 2 := by
  refine ⟨rfl, ?_, ?_⟩
  · simp [verify_assign_blockchain_id, rowA5, List.countP, List.countP.go]
  · simp [verify_assign_blockchain_id, rowA5, rowB7, List.countP, List.countP.go]

/-- C2 (amended): the chain-id writes issued by
`sync_markets_to_blockchain` (and `sync_from_blockchain`) are conditional
updates restricted to rows whose blockchain id is NULL: rows with a
non-NULL id are never modified; when no eligible row exists the write
affects zero rows and leaves the table unchanged (a benign no-op, not an
error — the embedded statement is total); and a second pass attempting an
assignment to the same row affects zero rows and changes nothing, so the
conditional write assigns at most once.  The write in
`verify_blockchain_sync` does not have this form (see the
counterexample). -/
theorem sync_assign_conditional :
    (∀ markets row_id blockchain_id m, m ∈ markets → m.blockchainMarketId ≠ none →
       m ∈ (sync_assign_blockchain_id markets row_id blockchain_id).1)
    ∧ (∀ markets row_id blockchain_id,
       (∀ m ∈ markets, ¬(m.id = row_id ∧ m.blockchainMarketId = none)) →
       sync_assign_blockchain_id markets row_id blockchain_id = (markets, 0))
    ∧ (∀ markets row_id b b',
       sync_assign_blockchain_id (sync_assign_blockchain_id markets row_id b).1 row_id b' =
         ((sync_assign_blockchain_id markets row_id b).1, 0)) := by
  have hnochange : ∀ (markets : List MarketRow) (row_id : String) (blockchain_id : ℤ),
      (∀ m ∈ markets, ¬(m.id = row_id ∧ m.blockchainMarketId = none)) →
      sync_assign_blockchain_id markets row_id blockchain_id = (markets, 0) := by
    intro markets row_id blockchain_id h
    unfold sync_assign_blockchain_id
    simp only [Prod.mk.injEq]
    constructor
    · calc markets.map (fun m =>
            if m.id == row_id && m.blockchainMarketId == none then
              { m with blockchainMarketId := some blockchain_id }
            else m)
          = markets.map id := by
            apply List.map_congr_left
            intro m hm
            have := h m hm
            simp only [id_eq, ite_eq_right_iff, Bool.and_eq_true, beq_iff_eq]
            intro hcond
            exact absurd ⟨hcond.1, hcond.2⟩ this
        _ = markets := List.map_id markets
    · rw [List.countP_eq_zero]
      intro m hm
      have := h m hm
      simp only [Bool.and_eq_true, beq_iff_eq, not_and]
      intro h1 h2
      exact this ⟨h1, h2⟩
  refine ⟨?_, hnochange, ?_⟩
  · intro markets row_id blockchain_id m hm hne
    have hfix : (if m.id == row_id && m.blockchainMarketId == none then
        { m with blockchainMarketId := some blockchain_id } else m) = m := by
      cases hb : m.blockchainMarketId with
      | none => exact absurd hb hne
      | some b => simp
    exact List.mem_map.mpr ⟨m, hm, hfix⟩
  · intro markets row_id b b'
    apply hnochange
    intro m' hm'
    obtain ⟨m, hm, rfl⟩ := List.mem_map.mp hm'
    by_cases hcond : (m.id == row_id && m.blockchainMarketId == none) = true
    · rw [if_pos hcond]
      simp
    · rw [if_neg hcond]
      simp only [Bool.and_eq_true, beq_iff_eq] at hcond
      intro hc
      exact hcond ⟨by simp [hc.1], by simp [hc.2]⟩

/-- Witness for C2 (amended): a row already holding an id survives the
conditional write unchanged, and a table with no eligible row is left
untouched with zero rows affected. -/
theorem sync_assign_conditional_witness :
    rowA5 ∈ (sync_assign_blockchain_id [rowA5] "A" 7).1 ∧
    sync_assign_blockchain_id [rowA5] "A" 7 = ([rowA5], 0) := by
  refine ⟨sync_assign_conditional.1 [rowA5] "A" 7 rowA5 (by simp) (by simp [rowA5]),
    sync_assign_conditional.2.1 [rowA5] "A" 7 ?_⟩
  intro m hm
  simp only [List.mem_singleton] at hm
  subst hm
  simp [rowA5]

/-- C4 counterexample: the reconciler's match predicate is not symmetric
in the prefix direction.  For an on-chain question "ab" and a database
question "a" the claimed predicate (equal after trimming, or one a prefix
of the other in either direction) holds, but the code's predicate does
not match — it only accepts the on-chain text being a prefix of the
database text. -/
theorem questions_match_counterexample :
    questions_match [Char.ofNat 97, Char.ofNat 98] [Char.ofNat 97] = false ∧
    spec_questions_match [Char.ofNat 97, Char.ofNat 98] [Char.ofNat 97] = true := by
  constructor <;> decide

/-- C4 (amended): the reconciler matches an on-chain question against a
database question exactly when, after trimming whitespace from both, the
texts are equal or the on-chain text is a prefix of the database text
(one direction only, tolerating on-chain truncation of the database
text); the converse direction is not accepted. -/
theorem questions_match_spec :
    ∀ blockchain_question db_question,
      questions_match blockchain_question db_question = true ↔
        (rustTrim blockchain_question = rustTrim db_question ∨
         rustTrim blockchain_question <+: rustTrim db_question) := by
  intro bq dq
  simp [questions_match, List.isPrefixOf_iff_prefix]


/-- Helper: every interval accepted by `validate_interval` is positive. -/
theorem validate_interval_pos (interval : String) (i : ℤ)
    (h : validate_interval interval = .ok i) : 0 < i := by
  unfold validate_interval at h
  split at h <;> simp_all <;> omega

/-- Helper: every element of the time loop is `current` plus a natural
multiple of the interval and is bounded by the end bucket. -/
theorem collectTimesAux_mem_forward (i e : ℤ) :
    ∀ (fuel : ℕ) (c t : ℤ), t ∈ collectTimesAux i e fuel c →
      (∃ n : ℕ, t = c + n * i) ∧ t ≤ e := by
  intro fuel
  induction fuel with
  | zero => intro c t ht; simp [collectTimesAux] at ht
  | succ fuel ih =>
    intro c t ht
    unfold collectTimesAux at ht
    by_cases hc : c ≤ e
    · rw [if_pos hc] at ht
      rcases List.mem_cons.mp ht with rfl | ht'
      · exact ⟨⟨0, by ring⟩, hc⟩
      · obtain ⟨⟨n, hn⟩, hle⟩ := ih (c + i) t ht'
        exact ⟨⟨n + 1, by rw [hn]; push_cast; ring⟩, hle⟩
    · rw [if_neg hc] at ht
      simp at ht

/-- Helper: with enough fuel the time loop contains exactly the values
`c + n * i` that do not exceed the end bucket (for a positive interval). -/
theorem collectTimesAux_mem (i e : ℤ) (hi : 0 < i) :
    ∀ (fuel : ℕ) (c : ℤ), (e + 1 - c).toNat ≤ fuel →
      ∀ t, (t ∈ collectTimesAux i e fuel c ↔ (∃ n : ℕ, t = c + n * i) ∧ t ≤ e) := by
  intro fuel
  induction fuel with
  | zero =>
    intro c hfuel t
    have hce : e < c := by omega
    simp only [collectTimesAux, List.not_mem_nil, false_iff]
    rintro ⟨⟨n, rfl⟩, hle⟩
    have : (0 : ℤ) ≤ n * i := mul_nonneg (by positivity) (le_of_lt hi)
    omega
  | succ fuel ih =>
    intro c hfuel t
    unfold collectTimesAux
    by_cases hc : c ≤ e
    · rw [if_pos hc]
      have hfuel' : (e + 1 - (c + i)).toNat ≤ fuel := by omega
      rw [List.mem_cons, ih (c + i) hfuel' t]
      constructor
      · rintro (rfl | ⟨⟨n, rfl⟩, hle⟩)
        · exact ⟨⟨0, by ring⟩, hc⟩
        · exact ⟨⟨n + 1, by push_cast; ring⟩, hle⟩
      · rintro ⟨⟨n, rfl⟩, hle⟩
        cases n with
        | zero => left; simp
        | succ n =>
          right
          refine ⟨⟨n, by push_cast; ring⟩, hle⟩
    · rw [if_neg hc]
      simp only [List.not_mem_nil, false_iff]
      rintro ⟨⟨n, rfl⟩, hle⟩
      have : (0 : ℤ) ≤ n * i := mul_nonneg (by positivity) (le_of_lt hi)
      omega

/-- Helper: the head of the time loop, when it exists, is `current`. -/
theorem collectTimesAux_head (i e : ℤ) (fuel : ℕ) (c : ℤ) :
    ∀ b ∈ (collectTimesAux i e fuel c).head?, b = c := by
  cases fuel with
  | zero => simp [collectTimesAux]
  | succ fuel =>
    unfold collectTimesAux
    by_cases hc : c ≤ e
    · rw [if_pos hc]; simp
    · rw [if_neg hc]; simp

/-- Helper: consecutive elements of the time loop differ by the
interval. -/
theorem collectTimesAux_chain (i e : ℤ) :
    ∀ (fuel : ℕ) (c : ℤ),
      (collectTimesAux i e fuel c).Chain' (fun a b => b = a + i) := by
  intro fuel
  induction fuel with
  | zero => intro c; simp [collectTimesAux]
  | succ fuel ih =>
    intro c
    unfold collectTimesAux
    by_cases hc : c ≤ e
    · rw [if_pos hc]
      rw [List.chain'_cons']
      refine ⟨?_, ih (c + i)⟩
      intro b hb
      rw [collectTimesAux_head i e fuel (c + i) b hb]
    · rw [if_neg hc]; simp

/-- Helper: for a positive interval the time loop is strictly
increasing. -/
theorem collectTimesAux_pairwise (i e : ℤ) (hi : 0 < i) :
    ∀ (fuel : ℕ) (c : ℤ),
      (collectTimesAux i e fuel c).Pairwise (· < ·) := by
  intro fuel
  induction fuel with
  | zero => intro c; simp [collectTimesAux]
  | succ fuel ih =>
    intro c
    unfold collectTimesAux
    by_cases hc : c ≤ e
    · rw [if_pos hc]
      refine List.Pairwise.cons ?_ (ih (c + i))
      intro t ht
      obtain ⟨⟨n, rfl⟩, _⟩ := collectTimesAux_mem_forward i e fuel (c + i) t ht
      have : (0 : ℤ) ≤ n * i := mul_nonneg (by positivity) (le_of_lt hi)
      omega
    · rw [if_neg hc]; simp

/-- Helper: the interval divides every bucket key. -/
theorem bucketKey_dvd (i t : ℤ) : i ∣ bucketKey i t :=
  ⟨t.tdiv i, mul_comm _ _⟩

/-- Helper: membership in the emitted time list, for a positive interval
and an interval-aligned start bucket: exactly the multiples of the
interval between the start and end buckets. -/
theorem collectTimes_mem (s e i : ℤ) (hi : 0 < i) (hs : i ∣ s) (t : ℤ) :
    t ∈ collectTimes s e i ↔ (i ∣ t ∧ s ≤ t ∧ t ≤ e) := by
  unfold collectTimes
  rw [collectTimesAux_mem i e hi ((e + 1 - s).toNat) s (le_refl _) t]
  constructor
  · rintro ⟨⟨n, rfl⟩, hle⟩
    have h0 : (0 : ℤ) ≤ n * i := mul_nonneg (by positivity) (le_of_lt hi)
    exact ⟨(Dvd.dvd.add hs ⟨n, mul_comm _ _⟩), by omega, hle⟩
  · rintro ⟨hdvd, hst, hle⟩
    obtain ⟨d, hd⟩ := (Int.dvd_sub hdvd hs : i ∣ t - s)
    have hd0 : 0 ≤ d := by
      by_contra hneg
      push_neg at hneg
      have : i * d < 0 := mul_neg_of_pos_of_neg hi hneg
      omega
    refine ⟨⟨d.toNat, ?_⟩, hle⟩
    have hdt : ((d.toNat : ℤ)) = d := Int.toNat_of_nonneg hd0
    have hcomm : i * d = d * i := mul_comm i d
    rw [hdt]
    omega


/-- Helper: the emitted `yes_probability` series has exactly one point per
bucket time, in order. -/
theorem chartLoop_yes_probability_times (b : ℤ → Option BucketData) :
    ∀ (ts : List ℤ) (ry rn : ℤ),
      ((chartLoop b ry rn ts).yes_probability.map (fun p => p.time)) = ts := by
  intro ts
  induction ts with
  | nil => intro ry rn; simp [chartLoop]
  | cons t rest ih =>
    intro ry rn
    cases hb : b t <;> simp [chartLoop, hb, ih]

/-- Helper: over an empty bucket map started from empty pools, every
probability is 1/2 and every odds value is 2. -/
theorem chartLoop_allNone :
    ∀ (ts : List ℤ),
      (∀ p ∈ (chartLoop (fun _ => none) 0 0 ts).yes_probability, p.value = 1/2) ∧
      (∀ p ∈ (chartLoop (fun _ => none) 0 0 ts).no_probability, p.value = 1/2) ∧
      (∀ p ∈ (chartLoop (fun _ => none) 0 0 ts).yes_odds, p.value = 2) ∧
      (∀ p ∈ (chartLoop (fun _ => none) 0 0 ts).no_odds, p.value = 2) := by
  intro ts
  induction ts with
  | nil => simp [chartLoop]
  | cons t rest ih =>
    obtain ⟨ih1, ih2, ih3, ih4⟩ := ih
    refine ⟨?_, ?_, ?_, ?_⟩ <;> intro p hp <;>
      simp only [chartLoop, List.mem_cons] at hp <;>
      rcases hp with rfl | hp
    · norm_num
    · exact ih1 p hp
    · norm_num
    · exact ih2 p hp
    · norm_num
    · exact ih3 p hp
    · norm_num
    · exact ih4 p hp

/-- Helper: in the `yes_volume` series, a bucket time absent from the
bucket map carries the previous point's value forward. -/
theorem chartLoop_yes_volume_chain (b : ℤ → Option BucketData) :
    ∀ (ts : List ℤ) (ry rn : ℤ),
      (chartLoop b ry rn ts).yes_volume.Chain'
        (fun p q => b q.time = none → q.value = p.value) := by
  intro ts
  induction ts with
  | nil => intro ry rn; simp [chartLoop]
  | cons t rest ih =>
    intro ry rn
    cases rest with
    | nil => cases hb : b t <;> simp [chartLoop, hb]
    | cons t2 rest2 =>
      cases hb : b t with
      | none =>
        cases hb2 : b t2 with
        | none =>
          simp only [chartLoop, hb, hb2, List.chain'_cons]
          exact ⟨fun _ => trivial, by simpa [chartLoop, hb2] using ih ry rn⟩
        | some bd2 =>
          simp only [chartLoop, hb, hb2, List.chain'_cons]
          exact ⟨fun hc => absurd hc (by simp), by simpa [chartLoop, hb2] using ih ry rn⟩
      | some bd =>
        cases hb2 : b t2 with
        | none =>
          simp only [chartLoop, hb, hb2, List.chain'_cons]
          exact ⟨fun _ => trivial,
            by simpa [chartLoop, hb2] using ih bd.yes_total bd.no_total⟩
        | some bd2 =>
          simp only [chartLoop, hb, hb2, List.chain'_cons]
          exact ⟨fun hc => absurd hc (by simp),
            by simpa [chartLoop, hb2] using ih bd.yes_total bd.no_total⟩

/-- Helper: in the `no_volume` series, a bucket time absent from the
bucket map carries the previous point's value forward. -/
theorem chartLoop_no_volume_chain (b : ℤ → Option BucketData) :
    ∀ (ts : List ℤ) (ry rn : ℤ),
      (chartLoop b ry rn ts).no_volume.Chain'
        (fun p q => b q.time = none → q.value = p.value) := by
  intro ts
  induction ts with
  | nil => intro ry rn; simp [chartLoop]
  | cons t rest ih =>
    intro ry rn
    cases rest with
    | nil => cases hb : b t <;> simp [chartLoop, hb]
    | cons t2 rest2 =>
      cases hb : b t with
      | none =>
        cases hb2 : b t2 with
        | none =>
          simp only [chartLoop, hb, hb2, List.chain'_cons]
          exact ⟨fun _ => trivial, by simpa [chartLoop, hb2] using ih ry rn⟩
        | some bd2 =>
          simp only [chartLoop, hb, hb2, List.chain'_cons]
          exact ⟨fun hc => absurd hc (by simp), by simpa [chartLoop, hb2] using ih ry rn⟩
      | some bd =>
        cases hb2 : b t2 with
        | none =>
          simp only [chartLoop, hb, hb2, List.chain'_cons]
          exact ⟨fun _ => trivial,
            by simpa [chartLoop, hb2] using ih bd.yes_total bd.no_total⟩
        | some bd2 =>
          simp only [chartLoop, hb, hb2, List.chain'_cons]
          exact ⟨fun hc => absurd hc (by simp),
            by simpa [chartLoop, hb2] using ih bd.yes_total bd.no_total⟩


/-- Helper: pointwise relations of the emitted series: probability is
yes-volume over total volume (1/2 when the total is not positive), the
no-probability is its complement, and each side's odds are the reciprocal
of its probability (2 when that probability is not positive). -/
theorem chartLoop_values (b : ℤ → Option BucketData) :
    ∀ (ts : List ℤ) (ry rn : ℤ) (j : ℕ)
      (pYes pNo pYesVol pTotal pYesOdd pNoOdd : ChartDataPoint),
      (chartLoop b ry rn ts).yes_probability.get? j = some pYes →
      (chartLoop b ry rn ts).no_probability.get? j = some pNo →
      (chartLoop b ry rn ts).yes_volume.get? j = some pYesVol →
      (chartLoop b ry rn ts).total_volume.get? j = some pTotal →
      (chartLoop b ry rn ts).yes_odds.get? j = some pYesOdd →
      (chartLoop b ry rn ts).no_odds.get? j = some pNoOdd →
      (pYes.value = if 0 < pTotal.value then pYesVol.value / pTotal.value else 1/2) ∧
      pNo.value = 1 - pYes.value ∧
      (pYesOdd.value = if 0 < pYes.value then 1 / pYes.value else 2) ∧
      (pNoOdd.value = if 0 < pNo.value then 1 / pNo.value else 2) := by
  intro ts
  induction ts with
  | nil =>
    intro ry rn j p1 p2 p3 p4 p5 p6 h1 h2 h3 h4 h5 h6
    simp [chartLoop] at h1
  | cons t rest ih =>
    intro ry rn j p1 p2 p3 p4 p5 p6 h1 h2 h3 h4 h5 h6
    cases j with
    | zero =>
      cases hb : b t <;>
        simp only [chartLoop, hb, List.get?_cons_zero, Option.some.injEq]
          at h1 h2 h3 h4 h5 h6 <;>
        subst h1 <;> subst h2 <;> subst h3 <;> subst h4 <;> subst h5 <;> subst h6 <;>
        refine ⟨by simp only [← Int.cast_add, Int.cast_pos], rfl, rfl, rfl⟩
    | succ j =>
      cases hb : b t <;>
        simp only [chartLoop, hb, List.get?_cons_succ] at h1 h2 h3 h4 h5 h6
      · exact ih ry rn j p1 p2 p3 p4 p5 p6 h1 h2 h3 h4 h5 h6
      · exact ih _ _ j p1 p2 p3 p4 p5 p6 h1 h2 h3 h4 h5 h6


/-- C7: for every chart query with a valid interval, the emitted series
has exactly one data point per interval-aligned bucket key between the
start and end buckets inclusive (membership characterisation plus strict
ascending order), consecutive points differ by exactly one interval (no
gaps), and a bucket with no bets carries the previous cumulative yes/no
pool values forward instead of resetting them. -/
theorem chart_bucket_coverage :
    ∀ db now market_id interval fromQ toQ interval_seconds data,
      validate_interval interval = .ok interval_seconds →
      get_market_chart_data db now market_id interval fromQ toQ = .ok data →
      (∀ k, k ∈ data.yes_probability.map (fun p => p.time) ↔
         (interval_seconds ∣ k ∧
          chartStartBucket db now market_id fromQ toQ interval_seconds ≤ k ∧
          k ≤ chartEndBucket now toQ interval_seconds))
      ∧ (data.yes_probability.map (fun p => p.time)).Chain'
          (fun a c => c = a + interval_seconds)
      ∧ (data.yes_probability.map (fun p => p.time)).Pairwise (· < ·)
      ∧ data.yes_volume.Chain' (fun p q =>
          chartBuckets db now market_id fromQ toQ interval_seconds q.time = none →
          q.value = p.value)
      ∧ data.no_volume.Chain' (fun p q =>
          chartBuckets db now market_id fromQ toQ interval_seconds q.time = none →
          q.value = p.value) := by
  intro db now market_id interval fromQ toQ i data hint hok
  have hi : 0 < i := validate_interval_pos interval i hint
  unfold get_market_chart_data at hok
  rw [hint] at hok
  simp only [Except.ok.injEq] at hok
  subst hok
  rw [chartLoop_yes_probability_times]
  refine ⟨?_, ?_, ?_, ?_, ?_⟩
  · intro k
    unfold chartTimes
    exact collectTimes_mem _ _ i hi (bucketKey_dvd i _) k
  · unfold chartTimes collectTimes
    exact collectTimesAux_chain i _ _ _
  · unfold chartTimes collectTimes
    exact collectTimesAux_pairwise i _ hi _ _
  · exact chartLoop_yes_volume_chain _ _ 0 0
  · exact chartLoop_no_volume_chain _ _ 0 0

/-- Witness for C7: in a concrete query with interval `1h` over
`[start, now] = [0, 7200]`, the interval boundary 3600 is emitted. -/
theorem chart_bucket_coverage_witness :
    (3600 : ℤ) ∈ ((chartLoop (chartBuckets sampleDb 7200 "m1" none none 3600) 0 0
      (chartTimes sampleDb 7200 "m1" none none 3600)).yes_probability.map
        (fun p => p.time)) := by
  have h := chart_bucket_coverage sampleDb 7200 "m1" "1h" none none 3600
    (chartLoop (chartBuckets sampleDb 7200 "m1" none none 3600) 0 0
      (chartTimes sampleDb 7200 "m1" none none 3600)) rfl rfl
  refine (h.1 3600).mpr ⟨⟨1, by norm_num⟩, ?_, ?_⟩
  · show chartStartBucket sampleDb 7200 "m1" none none 3600 ≤ 3600
    decide
  · show (3600 : ℤ) ≤ chartEndBucket 7200 none 3600
    decide

/-- C8: for a query whose bet list is empty, every emitted bucket has
yes- and no-probability exactly 1/2 and yes- and no-odds exactly 2; in
general each bucket's probability equals the running yes pool over the
running total pool (1/2 when the total pool is not positive), the
no-probability is its complement, and each side's odds are the
reciprocal of its probability (2 when that probability is not
positive). -/
theorem chart_probability_odds :
    (∀ db now market_id interval fromQ toQ interval_seconds data,
       validate_interval interval = .ok interval_seconds →
       get_market_chart_data db now market_id interval fromQ toQ = .ok data →
       chartBets db now market_id fromQ toQ = [] →
       (∀ p ∈ data.yes_probability, p.value = 1/2) ∧
       (∀ p ∈ data.no_probability, p.value = 1/2) ∧
       (∀ p ∈ data.yes_odds, p.value = 2) ∧
       (∀ p ∈ data.no_odds, p.value = 2))
    ∧ (∀ db now market_id interval fromQ toQ data j
         pYes pNo pYesVol pTotal pYesOdd pNoOdd,
       get_market_chart_data db now market_id interval fromQ toQ = .ok data →
       data.yes_probability.get? j = some pYes →
       data.no_probability.get? j = some pNo →
       data.yes_volume.get? j = some pYesVol →
       data.total_volume.get? j = some pTotal →
       data.yes_odds.get? j = some pYesOdd →
       data.no_odds.get? j = some pNoOdd →
       (pYes.value = if 0 < pTotal.value then pYesVol.value / pTotal.value else 1/2) ∧
       pNo.value = 1 - pYes.value ∧
       (pYesOdd.value = if 0 < pYes.value then 1 / pYes.value else 2) ∧
       (pNoOdd.value = if 0 < pNo.value then 1 / pNo.value else 2)) := by
  constructor
  · intro db now market_id interval fromQ toQ i data hint hok hbets
    unfold get_market_chart_data at hok
    rw [hint] at hok
    simp only [Except.ok.injEq] at hok
    subst hok
    have hbuckets : chartBuckets db now market_id fromQ toQ i = (fun _ => none) := by
      unfold chartBuckets
      rw [hbets]
      rfl
    rw [hbuckets]
    exact chartLoop_allNone (chartTimes db now market_id fromQ toQ i)
  · intro db now market_id interval fromQ toQ data j p1 p2 p3 p4 p5 p6 hok h1 h2 h3 h4 h5 h6
    unfold get_market_chart_data at hok
    cases hv : validate_interval interval with
    | error e =>
      rw [hv] at hok
      cases hok
    | ok i =>
      rw [hv] at hok
      simp only [Except.ok.injEq] at hok
      subst hok
      exact chartLoop_values _ _ 0 0 j p1 p2 p3 p4 p5 p6 h1 h2 h3 h4 h5 h6

/-- Witness for C8: a concrete zero-bet query (one bucket) in which both
conjuncts of the theorem apply: all probabilities are 1/2 and odds 2, and
the pointwise relations hold at index 0. -/
theorem chart_probability_odds_witness :
    (∀ p ∈ (chartLoop (chartBuckets sampleDb 0 "m1" (some 0) (some 0) 3600) 0 0
        (chartTimes sampleDb 0 "m1" (some 0) (some 0) 3600)).yes_probability,
        p.value = 1/2) ∧
    (∀ p ∈ (chartLoop (chartBuckets sampleDb 0 "m1" (some 0) (some 0) 3600) 0 0
        (chartTimes sampleDb 0 "m1" (some 0) (some 0) 3600)).no_probability,
        p.value = 1/2) ∧
    (∀ p ∈ (chartLoop (chartBuckets sampleDb 0 "m1" (some 0) (some 0) 3600) 0 0
        (chartTimes sampleDb 0 "m1" (some 0) (some 0) 3600)).yes_odds,
        p.value = 2) ∧
    (∀ p ∈ (chartLoop (chartBuckets sampleDb 0 "m1" (some 0) (some 0) 3600) 0 0
        (chartTimes sampleDb 0 "m1" (some 0) (some 0) 3600)).no_odds,
        p.value = 2) :=
  chart_probability_odds.1 sampleDb 0 "m1" "1h" (some 0) (some 0) 3600
    (chartLoop (chartBuckets sampleDb 0 "m1" (some 0) (some 0) 3600) 0 0
      (chartTimes sampleDb 0 "m1" (some 0) (some 0) 3600)) rfl rfl rfl

/-- C9 counterexample: `last_sync_time` is stamped with the time of the
`get_sync_status` call itself, so it advances between two reads even when
no sync job has run or succeeded in between (the database is identical at
both reads). -/
theorem get_sync_status_time_advances :
    (get_sync_status sampleDb 0 0).last_sync_time = some 0 ∧
    (get_sync_status sampleDb 0 1).last_sync_time = some 1 ∧
    (get_sync_status sampleDb 0 1).last_sync_time ≠
      (get_sync_status sampleDb 0 0).last_sync_time := by
  refine ⟨rfl, rfl, by decide⟩

/-- C9 (amended): `get_sync_status` reports the current row counts of the
markets, bets and protocols tables (so a failing scheduler is observable
as these counts not advancing), but `last_sync_time` is always the
current time of the call — it advances on every read regardless of job
outcomes — and `last_synced_block`/`is_syncing` are the constants `0` and
`false`. -/
theorem get_sync_status_spec :
    ∀ (db : Db) (protocolsCount : ℕ) (now : ℤ),
      (get_sync_status db protocolsCount now).markets_synced = db.markets.length ∧
      (get_sync_status db protocolsCount now).bets_synced = db.bets.length ∧
      (get_sync_status db protocolsCount now).protocols_synced = protocolsCount ∧
      (get_sync_status db protocolsCount now).last_sync_time = some now ∧
      (get_sync_status db protocolsCount now).last_synced_block = 0 ∧
      (get_sync_status db protocolsCount now).is_syncing = false :=
  fun _ _ _ => ⟨rfl, rfl, rfl, rfl, rfl, rfl⟩

/-- C10 counterexample: for an identifier matching no market, the chart
query still succeeds, but because the missing market's blockchain id
defaults to 0 the bet query picks up the bets of a market legitimately
holding chain id 0, so the emitted buckets are not all 1/2: with a 7-unit
yes bet on chain-id-0 market `M0` in range, both emitted probability
values are 1. -/
theorem chart_unknown_market_counterexample :
    chartQueryMarket ghostDb "ghost" = none ∧
    Except.map (fun d => d.yes_probability.map (fun p => p.value))
      (get_market_chart_data ghostDb 0 "ghost" "1d" none none) =
      .ok [1, 1] := by
  refine ⟨rfl, ?_⟩
  have h1 : chartBuckets ghostDb 0 "ghost" none none 86400 (-86400) =
      some { yes_volume := 7000000, no_volume := 0, yes_count := 1, no_count := 0,
             yes_total := 7000000, no_total := 0 } := rfl
  have h2 : chartBuckets ghostDb 0 "ghost" none none 86400 0 = none := rfl
  have ht : chartTimes ghostDb 0 "ghost" none none 86400 = [-86400, 0] := rfl
  have hget : get_market_chart_data ghostDb 0 "ghost" "1d" none none =
      .ok (chartLoop (chartBuckets ghostDb 0 "ghost" none none 86400) 0 0
            [-86400, 0]) := by
    unfold get_market_chart_data
    rw [show validate_interval "1d" = Except.ok 86400 from rfl]
    exact congrArg Except.ok (congrArg (chartLoop _ 0 0) ht)
  rw [hget]
  simp only [Except.map, chartLoop, h1, h2]
  norm_num

/-- C10 (amended): for every identifier matching no database market and
every valid interval, `get_market_chart_data` returns `Ok` (never
`NotFound`), the defaulted creation time is seven days before now and the
defaulted blockchain market id is 0; and whenever the resulting bet list
is empty (the default id 0 can match a real market's bets, see the
counterexample) every emitted bucket has probability 1/2 and odds 2. -/
theorem chart_unknown_market :
    ∀ db now market_id interval fromQ toQ interval_seconds,
      validate_interval interval = .ok interval_seconds →
      chartQueryMarket db market_id = none →
      (∃ data, get_market_chart_data db now market_id interval fromQ toQ = .ok data)
      ∧ chartMarketCreatedAt db now market_id = now - 86400 * 7
      ∧ chartBlockchainMarketId db market_id = 0
      ∧ (∀ data, get_market_chart_data db now market_id interval fromQ toQ = .ok data →
           chartBets db now market_id fromQ toQ = [] →
           (∀ p ∈ data.yes_probability, p.value = 1/2) ∧
           (∀ p ∈ data.yes_odds, p.value = 2)) := by
  intro db now market_id interval fromQ toQ i hint hnone
  refine ⟨⟨chartLoop (chartBuckets db now market_id fromQ toQ i) 0 0
    (chartTimes db now market_id fromQ toQ i), ?_⟩, ?_, ?_, ?_⟩
  · unfold get_market_chart_data
    rw [hint]
  · unfold chartMarketCreatedAt
    rw [hnone]
    rfl
  · unfold chartBlockchainMarketId
    rw [hnone]
    rfl
  · intro data hok hbets
    unfold get_market_chart_data at hok
    rw [hint] at hok
    simp only [Except.ok.injEq] at hok
    subst hok
    have hbuckets : chartBuckets db now market_id fromQ toQ i = (fun _ => none) := by
      unfold chartBuckets
      rw [hbets]
      rfl
    rw [hbuckets]
    obtain ⟨hA, _, hC, _⟩ := chartLoop_allNone (chartTimes db now market_id fromQ toQ i)
    exact ⟨hA, hC⟩

/-- Witness for C10 (amended): a concrete unknown identifier against the
sample database. -/
theorem chart_unknown_market_witness :
    (∃ data, get_market_chart_data sampleDb 0 "ghost" "1h" (some 0) (some 0) = .ok data)
    ∧ chartMarketCreatedAt sampleDb 0 "ghost" = 0 - 86400 * 7
    ∧ chartBlockchainMarketId sampleDb "ghost" = 0
    ∧ (∀ data, get_market_chart_data sampleDb 0 "ghost" "1h" (some 0) (some 0) = .ok data →
         chartBets sampleDb 0 "ghost" (some 0) (some 0) = [] →
         (∀ p ∈ data.yes_probability, p.value = 1/2) ∧
         (∀ p ∈ data.yes_odds, p.value = 2)) :=
  chart_unknown_market sampleDb 0 "ghost" "1h" (some 0) (some 0) 3600 rfl
    (by simp [chartQueryMarket, sampleDb, sampleMarket, List.find?])

end Whizy
